import Mathlib

/-
Verification of fastbert.py (duxiaochao/FastBERT, src/pypi/fastbert/fastbert.py).

The external collaborators (UER backbone, tokenizer, vocabulary, torch tensor
kernels) are treated as black boxes: for a fixed sentence and fixed parameters
their composite collapses to per-layer probability rows and per-layer
uncertainty scores, which is exactly the data the control flow of fastbert.py
consumes. Everything below that interface (the early-exit loop, the label
dictionaries, truncation and padding, evaluation, the checkpoint policy, the
pooling dispatch, the training orchestration) is translated from the source.
-/

namespace FastBERT

/-- Python objects used as dictionary keys and values in fastbert.py: label
names (strings or ints) and integer label ids. -/
inductive PyObj where
  | pstr (s : String)
  | pint (n : Int)
deriving DecidableEq, Repr

/-- Lookup in a Python dict represented by its insertion-ordered binding list:
the last binding of a key wins (Python overwrite semantics); none models a
raised KeyError. -/
def pyDictGet (d : List (PyObj × PyObj)) (k : PyObj) : Option PyObj :=
  (d.reverse.find? (fun kv => decide (kv.1 = k))).map (fun kv => kv.2)

/-- label_map built at construction (fastbert.py line 80): the label at
position v maps to the id v. -/
def labelMapList (labels : List PyObj) : List (PyObj × PyObj) :=
  labels.enum.map (fun p => (p.2, PyObj.pint (Int.ofNat p.1)))

/-- id2label built from label_map (line 81): the id v maps back to its label. -/
def id2labelList (labels : List PyObj) : List (PyObj × PyObj) :=
  (labelMapList labels).map (fun kv => (kv.2, kv.1))

/-- The data _fast_infer consumes for one fixed sentence under fixed
parameters: the number of backbone layers, and for each layer index i the
softmax row produced by classifier i on the hidden state of layer i
(lines 241-243), together with the scalar returned by calc_uncertainty on that
row (line 244; calc_uncertainty lives in fastbert/utils.py, outside src/, and
is kept abstract here). -/
structure InferModel where
  layersNum : Nat
  probs : Nat → List ℚ
  uncertainty : Nat → ℚ

/-- Modelled from the spec: calc_uncertainty (fastbert/utils.py, not under
src/) is a normalized entropy, a score lying in the interval from 0 to 1
(spec section 4.1). -/
def uncertaintyInRange (m : InferModel) : Prop :=
  ∀ i, 0 ≤ m.uncertainty i ∧ m.uncertainty i ≤ 1

/-- torch.argmax over one row (line 251): index of the greatest entry, the
first one on ties. -/
def argmaxGo : List ℚ → Nat → Nat → ℚ → Nat
  | [], _, bi, _ => bi
  | x :: xs, i, bi, bv => if bv < x then argmaxGo xs (i + 1) i x else argmaxGo xs (i + 1) bi bv

/-- torch.argmax on a row; rows are nonempty wherever the code applies it. -/
def torchArgmax : List ℚ → Nat
  | [] => 0
  | x :: xs => argmaxGo xs 1 0 x

/-- The layer loop of _fast_infer (lines 238-249). fuel counts the remaining
iterations of the range loop, i is the current layer index, and cur is the
layer index whose row the Python variable probs currently holds (none before
the first iteration; a zero-layer model would leave probs unassigned, a
NameError at line 251, modelled by none). On a break, exec_layer_num becomes
i + 1; at normal loop exit it keeps its initial value layersNum. -/
def fastInferLoop (m : InferModel) (speed : ℚ) : Nat → Nat → Option Nat → Option (Nat × Nat)
  | 0, _, cur => cur.map (fun j => (torchArgmax (m.probs j), m.layersNum))
  | rem + 1, i, _ =>
    if m.uncertainty i < speed then some (torchArgmax (m.probs i), i + 1)
    else fastInferLoop m speed rem (i + 1) (some i)

/-- The numeric core of _fast_infer (lines 221-253): the argmax label id of
the row held by probs when the loop stops, paired with exec_layer_num. -/
def fastInferCore (m : InferModel) (speed : ℚ) : Option (Nat × Nat) :=
  fastInferLoop m speed m.layersNum 0 none

/-- _fast_infer including its id2label lookup (lines 251-253): it returns the
label NAME (not the id) together with exec_layer_num. -/
def fastInferPy (labels : List PyObj) (m : InferModel) (speed : ℚ) : Option (PyObj × Nat) := do
  let r ← fastInferCore m speed
  let lab ← pyDictGet (id2labelList labels) (PyObj.pint (Int.ofNat r.1))
  pure (lab, r.2)

/-- FastBERT.forward (lines 173-188): it unpacks the pair returned by
_fast_infer as (label_id, exec_layer_num) and looks the first component up in
id2label once more before returning. -/
def forwardPy (labels : List PyObj) (m : InferModel) (speed : ℚ) : Option (PyObj × Nat) := do
  let r ← fastInferPy labels m speed
  let lab ← pyDictGet (id2labelList labels) r.1
  pure (lab, r.2)

/-- A two-label space as in the spec scenarios. -/
def demoLabels : List PyObj := [PyObj.pstr "pos", PyObj.pstr "neg"]

/-- A one-layer inference situation whose single classifier is fully
confident in label id 0. -/
def demoModelConfident : InferModel := ⟨1, fun _ => [1, 0], fun _ => 1⟩

/-- C1: the claim fails on the code. _fast_infer already maps the predicted
id through id2label and returns the label name (here the pair (pos, 1)), and
FastBERT.forward then looks that name up in id2label a second time; id2label
has only integer-id keys, so the second lookup raises KeyError (none) instead
of returning a member of the label list. -/
theorem forward_double_id2label_lookup :
    fastInferPy demoLabels demoModelConfident 0 = some (PyObj.pstr "pos", 1) ∧
    forwardPy demoLabels demoModelConfident 0 = none := by
  decide

theorem fastInferLoop_zero (m : InferModel) (s : ℚ) (i : Nat) (cur : Option Nat) :
    fastInferLoop m s 0 i cur = cur.map (fun j => (torchArgmax (m.probs j), m.layersNum)) := rfl

theorem fastInferLoop_succ (m : InferModel) (s : ℚ) (rem i : Nat) (cur : Option Nat) :
    fastInferLoop m s (rem + 1) i cur
      = if m.uncertainty i < s then some (torchArgmax (m.probs i), i + 1)
        else fastInferLoop m s rem (i + 1) (some i) := rfl

/-- If no layer is ever uncertain enough to break, the loop runs all its fuel
and ends holding the row of the last executed layer. -/
theorem fastInferLoop_no_exit (m : InferModel) (s : ℚ) (hs : ∀ j, ¬ m.uncertainty j < s) :
    ∀ rem i cur, fastInferLoop m s (rem + 1) i cur
      = some (torchArgmax (m.probs (i + rem)), m.layersNum) := by
  intro rem
  induction rem with
  | zero =>
    intro i cur
    rw [fastInferLoop_succ, if_neg (hs i), fastInferLoop_zero]
    simp
  | succ n ih =>
    intro i cur
    rw [fastInferLoop_succ, if_neg (hs i), ih (i + 1) (some i)]
    have h : i + 1 + n = i + (n + 1) := by omega
    rw [h]

/-- C2: with speed 0.0 the break condition uncertainty less than 0.0 never
fires (the uncertainty score is nonnegative, modelled from the spec), so
_fast_infer executes every layer: exec_layer_num equals layersNum and the
predicted id is the argmax of the last (teacher) classifier row. -/
theorem speed_zero_full_depth (m : InferModel) (hL : 0 < m.layersNum)
    (hu : uncertaintyInRange m) :
    fastInferCore m 0 = some (torchArgmax (m.probs (m.layersNum - 1)), m.layersNum) := by
  obtain ⟨n, hn⟩ : ∃ n, m.layersNum = n + 1 :=
    ⟨m.layersNum - 1, (Nat.succ_pred_eq_of_pos hL).symm⟩
  have hs : ∀ j, ¬ m.uncertainty j < 0 := fun j => not_lt.mpr (hu j).1
  simp only [fastInferCore]
  rw [hn, fastInferLoop_no_exit m 0 hs n 0 none]
  simp [hn]

/-- Witness for speed_zero_full_depth at a concrete two-layer situation. -/
theorem speed_zero_full_depth_witness :
    fastInferCore ⟨2, fun _ => [1/3, 2/3], fun _ => 1/2⟩ 0
      = some (torchArgmax ([1/3, 2/3] : List ℚ), 2) :=
  speed_zero_full_depth ⟨2, fun _ => [1/3, 2/3], fun _ => 1/2⟩ (by decide)
    (fun i => ⟨by norm_num, by norm_num⟩)

/-- Whatever the loop returns, its exec count is at least i + 1 (a break at or
after layer i) or is the full layer count (normal exit). -/
theorem fastInferLoop_exec_lb (m : InferModel) (s : ℚ) :
    ∀ rem i cur r, fastInferLoop m s rem i cur = some r →
      i + 1 ≤ r.2 ∨ r.2 = m.layersNum := by
  intro rem
  induction rem with
  | zero =>
    intro i cur r h
    rw [fastInferLoop_zero] at h
    cases cur with
    | none => exact absurd h (by simp)
    | some j =>
      right
      have h2 := Option.some.inj h
      rw [← h2]
  | succ n ih =>
    intro i cur r h
    rw [fastInferLoop_succ] at h
    by_cases hc : m.uncertainty i < s
    · rw [if_pos hc] at h
      left
      have h2 := Option.some.inj h
      rw [← h2]
    · rw [if_neg hc] at h
      rcases ih (i + 1) (some i) r h with h1 | h1
      · left; omega
      · right; exact h1

/-- Antitone step lemma: from the same layer with the same remaining fuel, a
larger threshold never executes more layers than a smaller one. -/
theorem fastInferLoop_exec_antitone (m : InferModel) (a b : ℚ) (hba : b < a) :
    ∀ rem i cura curb ra rb, i + rem = m.layersNum →
      fastInferLoop m a rem i cura = some ra →
      fastInferLoop m b rem i curb = some rb →
      ra.2 ≤ rb.2 := by
  intro rem
  induction rem with
  | zero =>
    intro i cura curb ra rb hinv ha hb
    rw [fastInferLoop_zero] at ha hb
    cases cura with
    | none => exact absurd ha (by simp)
    | some ja =>
      cases curb with
      | none => exact absurd hb (by simp)
      | some jb =>
        have ha2 := Option.some.inj ha
        have hb2 := Option.some.inj hb
        rw [← ha2, ← hb2]
  | succ n ih =>
    intro i cura curb ra rb hinv ha hb
    rw [fastInferLoop_succ] at ha hb
    by_cases hib : m.uncertainty i < b
    · have hia : m.uncertainty i < a := lt_trans hib hba
      rw [if_pos hia] at ha
      rw [if_pos hib] at hb
      have ha2 := Option.some.inj ha
      have hb2 := Option.some.inj hb
      rw [← ha2, ← hb2]
    · rw [if_neg hib] at hb
      by_cases hia : m.uncertainty i < a
      · rw [if_pos hia] at ha
        have h1 := fastInferLoop_exec_lb m b n (i + 1) (some i) rb hb
        rw [← Option.some.inj ha]
        show i + 1 ≤ rb.2
        rcases h1 with h1 | h1 <;> omega
      · rw [if_neg hia] at ha
        exact ih (i + 1) (some i) (some i) ra rb (by omega) ha hb

/-- C3: for a fixed input and fixed parameters the executed-layer count is
antitone in the speed threshold: a strictly larger threshold in the unit
interval executes at most as many layers. -/
theorem exec_layer_antitone (m : InferModel) (a b : ℚ)
    (h0 : 0 ≤ b) (h1 : a ≤ 1) (hba : b < a) (ra rb : Nat × Nat)
    (ha : fastInferCore m a = some ra) (hb : fastInferCore m b = some rb) :
    ra.2 ≤ rb.2 := by
  simp only [fastInferCore] at ha hb
  exact fastInferLoop_exec_antitone m a b hba m.layersNum 0 none none ra rb (by omega) ha hb

/-- Witness for exec_layer_antitone: at threshold 3/4 the demo input exits
after layer 1, at threshold 1/4 it runs both layers. -/
theorem exec_layer_antitone_witness :
    fastInferCore ⟨2, fun _ => [1, 0], fun i => if i = 0 then 1/2 else 1/4⟩ (3/4)
        = some (0, 1) ∧
    fastInferCore ⟨2, fun _ => [1, 0], fun i => if i = 0 then 1/2 else 1/4⟩ (1/4)
        = some (0, 2) ∧
    ((0, 1) : Nat × Nat).2 ≤ ((0, 2) : Nat × Nat).2 :=
  ⟨by norm_num [fastInferCore, fastInferLoop, torchArgmax, argmaxGo],
    by norm_num [fastInferCore, fastInferLoop, torchArgmax, argmaxGo],
    exec_layer_antitone ⟨2, fun _ => [1, 0], fun i => if i = 0 then 1/2 else 1/4⟩
      (3/4) (1/4) (by norm_num) (by norm_num) (by norm_num)
      (0, 1) (0, 2)
      (by norm_num [fastInferCore, fastInferLoop, torchArgmax, argmaxGo])
      (by norm_num [fastInferCore, fastInferLoop, torchArgmax, argmaxGo])⟩

/-- _convert_to_id_and_mask (lines 317-329). toks is the id sequence the
external tokenizer and vocabulary produce for the sentence; ids prepends the
CLS id, the mask starts as all ones, and the pair is truncated to seq_length
when long enough, otherwise padded with the PAD id and zeros. -/
def convertToIdAndMask (clsId padId seqLength : Nat) (toks : List Nat) : List Nat × List Nat :=
  let ids := clsId :: toks
  let mask := List.replicate ids.length 1
  if seqLength ≤ ids.length then
    (ids.take seqLength, mask.take seqLength)
  else
    (ids ++ List.replicate (seqLength - ids.length) padId,
     mask ++ List.replicate (seqLength - ids.length) 0)

theorem convert_eq_cases (clsId padId seqLength : Nat) (toks : List Nat) :
    convertToIdAndMask clsId padId seqLength toks
      = if seqLength ≤ toks.length + 1 then
          ((clsId :: toks).take seqLength, (List.replicate (toks.length + 1) 1).take seqLength)
        else
          ((clsId :: toks) ++ List.replicate (seqLength - (toks.length + 1)) padId,
           List.replicate (toks.length + 1) 1 ++ List.replicate (seqLength - (toks.length + 1)) 0) := by
  simp [convertToIdAndMask]

theorem getD_replicate_self (b i y : Nat) : (List.replicate b y).getD i y = y := by
  induction b generalizing i with
  | zero => simp
  | succ n ih =>
    cases i with
    | zero => simp [List.replicate_succ]
    | succ k => simp [List.replicate_succ, ih k]

theorem getD_repl_append (a b i : Nat) :
    (List.replicate a (1 : Nat) ++ List.replicate b 0).getD i 0
      = if i < a then 1 else 0 := by
  induction a generalizing i with
  | zero => simp [getD_replicate_self]
  | succ n ih =>
    cases i with
    | zero => simp [List.replicate_succ]
    | succ k =>
      rw [List.replicate_succ, List.cons_append, List.getD_cons_succ, ih k]
      simp [Nat.succ_lt_succ_iff]

/-- C4: the conversion always returns ids and mask of length exactly
seq_length; position 0 of ids is the CLS (start-token) id; ids is the
truncation of CLS-plus-tokens to seq_length followed by PAD padding, the mask
is ones on the kept real tokens followed by zeros; and mask i = 1 exactly at
the real-token positions. -/
theorem convert_shape (clsId padId seqLength : Nat) (toks : List Nat)
    (hs : 0 < seqLength) :
    (convertToIdAndMask clsId padId seqLength toks).1.length = seqLength ∧
    (convertToIdAndMask clsId padId seqLength toks).2.length = seqLength ∧
    (convertToIdAndMask clsId padId seqLength toks).1.head? = some clsId ∧
    (convertToIdAndMask clsId padId seqLength toks).1
      = (clsId :: toks).take seqLength
        ++ List.replicate (seqLength - (toks.length + 1)) padId ∧
    (convertToIdAndMask clsId padId seqLength toks).2
      = List.replicate (min (toks.length + 1) seqLength) 1
        ++ List.replicate (seqLength - (toks.length + 1)) 0 ∧
    ∀ i, i < seqLength →
      ((convertToIdAndMask clsId padId seqLength toks).2.getD i 0 = 1
        ↔ i < toks.length + 1) := by
  have hids : (convertToIdAndMask clsId padId seqLength toks).1
      = (clsId :: toks).take seqLength
        ++ List.replicate (seqLength - (toks.length + 1)) padId := by
    rw [convert_eq_cases]
    rcases le_or_lt seqLength (toks.length + 1) with hc | hc
    · rw [if_pos hc]
      simp [Nat.sub_eq_zero_of_le hc]
    · rw [if_neg (not_le.mpr hc)]
      have hlen : (clsId :: toks).length ≤ seqLength := by
        simp [List.length_cons]; omega
      simp [List.take_of_length_le hlen]
  have hmask : (convertToIdAndMask clsId padId seqLength toks).2
      = List.replicate (min (toks.length + 1) seqLength) 1
        ++ List.replicate (seqLength - (toks.length + 1)) 0 := by
    rw [convert_eq_cases]
    rcases le_or_lt seqLength (toks.length + 1) with hc | hc
    · rw [if_pos hc]
      simp [List.take_replicate, Nat.sub_eq_zero_of_le hc, Nat.min_comm]
    · rw [if_neg (not_le.mpr hc)]
      simp [Nat.min_eq_left (le_of_lt hc)]
  refine ⟨?_, ?_, ?_, hids, hmask, ?_⟩
  · rw [hids]
    simp only [List.length_append, List.length_take, List.length_cons,
      List.length_replicate]
    omega
  · rw [hmask]
    simp only [List.length_append, List.length_replicate]
    omega
  · obtain ⟨k, hk⟩ : ∃ k, seqLength = k + 1 :=
      ⟨seqLength - 1, (Nat.succ_pred_eq_of_pos hs).symm⟩
    rw [hids, hk]
    simp [List.take_succ_cons]
  · intro i hi
    rw [hmask, getD_repl_append]
    by_cases hm : i < min (toks.length + 1) seqLength
    · rw [if_pos hm]
      constructor
      · intro _; omega
      · intro _; rfl
    · rw [if_neg hm]
      constructor
      · intro h01; exact absurd h01 (by decide)
      · intro h2; exact absurd h2 (by omega)

/-- Witness for convert_shape covering spec scenarios A and B at
seq_length 4: a one-token sentence is padded, a five-token sentence is
truncated with the CLS id kept at position 0. -/
theorem convert_shape_witness :
    (convertToIdAndMask 101 0 4 [7]).1.length = 4 ∧
    convertToIdAndMask 101 0 4 [7] = ([101, 7, 0, 0], [1, 1, 0, 0]) ∧
    convertToIdAndMask 101 0 4 [7, 8, 9, 10, 11] = ([101, 7, 8, 9], [1, 1, 1, 1]) :=
  ⟨(convert_shape 101 0 4 [7] (by decide)).1, by decide, by decide⟩

/-- The zip loop of FastBERT._evaluate (lines 437-441): one dataset entry is
the inference situation of a sentence paired with its gold label; the loop
accumulates the right-prediction count and the sum of executed layer counts
(np.mean divides that sum later); none models an exception inside _fast_infer. -/
def evaluateLoop (labels : List PyObj) (speed : ℚ) :
    List (InferModel × PyObj) → Option (Nat × Nat)
  | [] => some (0, 0)
  | d :: rest => do
    let r ← fastInferPy labels d.1 speed
    let acc ← evaluateLoop labels speed rest
    pure ((if d.2 = r.1 then 1 else 0) + acc.1, r.2 + acc.2)

/-- FastBERT._evaluate (lines 430-444): accuracy and average executed-layer
count; an empty dataset divides by zero (ZeroDivisionError), modelled none. -/
def evaluateModel (labels : List PyObj) (data : List (InferModel × PyObj))
    (speed : ℚ) : Option (ℚ × ℚ) := do
  let acc ← evaluateLoop labels speed data
  if data.length = 0 then none
  else some ((acc.1 : ℚ) / (data.length : ℚ), (acc.2 : ℚ) / (data.length : ℚ))

/-- Epoch-end evaluation of self_distillation (lines 506-511): when the dev
set is nonempty the code calls _evaluate(sentences_dev, labels_dev, speed=0.5)
with the hard-coded literal 0.5 — the dev_speed parameter of the method is not
used — and when the dev set is empty the conditional expression yields the
float 0.0, whose unpacking into (dev_acc, ave_layers) raises TypeError (none). -/
def selfDistillEpochEval (labels : List PyObj) (devData : List (InferModel × PyObj))
    (devSpeed : ℚ) : Option (ℚ × ℚ) :=
  if 0 < devData.length then evaluateModel labels devData (1/2) else none

/-- Epoch-end evaluation of _fine_tuning_backbone (lines 395-397): with a
nonempty dev set, dev accuracy is computed at speed 0.0; with an empty dev set
the conditional expression is the float 0.0 and the unpacking
dev_acc, _ = 0.0 raises TypeError (none) before anything else; the training
accuracy at speed 0.0 is computed on the following line. -/
def fineTuneEpochEval (labels : List PyObj) (devData trainData : List (InferModel × PyObj)) :
    Option (ℚ × ℚ) := do
  let devAcc ← if 0 < devData.length then (evaluateModel labels devData 0).map (fun r => r.1)
    else none
  let trainAcc ← (evaluateModel labels trainData 0).map (fun r => r.1)
  pure (devAcc, trainAcc)

/-- A two-label space for the evaluation scenarios. -/
def demoLabelsAB : List PyObj := [PyObj.pstr "A", PyObj.pstr "B"]

/-- A two-layer inference situation predicting label id 0 at every layer,
uncertain at layer 0 (score 7/10) and certain at layer 1 (score 0): at
threshold 1/2 it executes 2 layers, at threshold 9/10 only 1. -/
def demoDevModel : InferModel := ⟨2, fun _ => [1, 0], fun i => if i = 0 then 7/10 else 0⟩

/-- A one-sentence labelled dataset built from demoDevModel. -/
def demoDevSet : List (InferModel × PyObj) := [(demoDevModel, PyObj.pstr "A")]

/-- C5: the claim fails on the code. Called with dev_speed 9/10, the
self-distillation epoch evaluation still returns the speed-0.5 result
(accuracy 1, average 2 executed layers), whereas _evaluate at the supplied
9/10 gives average 1 executed layer: the caller-supplied dev_speed is ignored
in favour of the hard-coded 0.5. -/
theorem selfDistill_eval_ignores_dev_speed :
    selfDistillEpochEval demoLabelsAB demoDevSet (9/10) = some (1, 2) ∧
    evaluateModel demoLabelsAB demoDevSet (9/10) = some (1, 1) ∧
    selfDistillEpochEval demoLabelsAB demoDevSet (9/10)
      ≠ evaluateModel demoLabelsAB demoDevSet (9/10) := by
  refine ⟨?_, ?_, ?_⟩ <;>
    norm_num [selfDistillEpochEval, evaluateModel, evaluateLoop, demoLabelsAB,
      demoDevSet, demoDevModel, fastInferPy, fastInferCore, fastInferLoop,
      torchArgmax, argmaxGo, pyDictGet, id2labelList, labelMapList,
      List.enum, List.enumFrom, List.find?, Function.comp]

/-- C6: the first conjunct confirms that with a dev set the fine-tuning epoch
evaluates it at speed 0.0; the second refutes the training-set fallback: with
an empty dev set the epoch evaluation raises TypeError (none) instead of
completing with the training-set accuracy. -/
theorem fineTune_epoch_eval_crashes_without_dev :
    fineTuneEpochEval demoLabelsAB demoDevSet demoDevSet = some (1, 1) ∧
    fineTuneEpochEval demoLabelsAB [] demoDevSet = none := by
  constructor <;>
    norm_num [fineTuneEpochEval, evaluateModel, evaluateLoop, demoLabelsAB,
      demoDevSet, demoDevModel, fastInferPy, fastInferCore, fastInferLoop,
      torchArgmax, argmaxGo, pyDictGet, id2labelList, labelMapList,
      List.enum, List.enumFrom, List.find?, Function.comp]

/-- Arithmetic mean of one row, as torch.mean computes along a dimension. -/
def listMean (l : List ℚ) : ℚ := l.foldl (fun a b => a + b) 0 / (l.length : ℚ)

/-- torch.max(hidden, dim=1)[0]: elementwise maximum over the sequence
dimension; none models the torch error on an empty dimension. -/
def maxOverSeq : List (List ℚ) → Option (List ℚ)
  | [] => none
  | r :: rs => some (rs.foldl (fun acc row => List.zipWith max acc row) r)

/-- The pooling dispatch of MiniClassifier.forward (lines 40-47) on a
(batch, seq, hidden) tensor modelled as nested lists: the mean branch applies
torch.mean(hidden, dim=-1), reducing the LAST (hidden) dimension; the max
branch reduces dim=1 (the sequence dimension); last and first index the
sequence dimension (the else branch catches every other pooling string). -/
def miniClassifierPool (pooling : String) (hidden : List (List (List ℚ))) :
    Option (List (List ℚ)) :=
  if pooling = "mean" then
    some (hidden.map (fun sent => sent.map listMean))
  else if pooling = "max" then
    hidden.mapM maxOverSeq
  else if pooling = "last" then
    hidden.mapM (fun sent => sent.getLast?)
  else
    hidden.mapM (fun sent => sent.head?)

/-- Shape check for a (rows, cols) nested list. -/
def hasShape2 (b h : Nat) (t : List (List ℚ)) : Bool :=
  t.length == b && t.all (fun r => r.length == h)

/-- A concrete hidden tensor of shape (batch 1, seq 2, hidden 3). -/
def demoHidden : List (List (List ℚ)) := [[[1, 2, 3], [4, 0, 6]]]

/-- C7: the claim fails on the code for the mean strategy. On a
(1, 2, 3)-shaped input, mean pooling reduces the hidden dimension and returns
shape (1, 2) instead of collapsing the sequence dimension to (batch, hidden)
= (1, 3); max, last and first do return (batch, hidden). -/
theorem miniClassifier_mean_pools_wrong_dim :
    miniClassifierPool "mean" demoHidden = some [[2, 10/3]] ∧
    hasShape2 1 3 ((miniClassifierPool "mean" demoHidden).getD []) = false ∧
    hasShape2 1 2 ((miniClassifierPool "mean" demoHidden).getD []) = true ∧
    miniClassifierPool "max" demoHidden = some [[4, 2, 6]] ∧
    hasShape2 1 3 ((miniClassifierPool "max" demoHidden).getD []) = true ∧
    miniClassifierPool "last" demoHidden = some [[4, 0, 6]] ∧
    miniClassifierPool "first" demoHidden = some [[1, 2, 3]] := by
  refine ⟨?_, ?_, ?_, ?_, ?_, ?_, ?_⟩ <;>
    norm_num [miniClassifierPool, demoHidden, listMean, maxOverSeq, hasShape2,
      List.mapM, List.mapM.loop] <;>
    simp

/-- Save decisions of the Phase 1 epoch loop (lines 370-422): best_acc starts
at 0.0 and a snapshot is saved exactly when the accuracy of the epoch strictly
exceeds best_acc, which is then updated. phase1Go threads best_acc through the
per-epoch accuracies. -/
def phase1Go (best : ℚ) : List ℚ → List Bool
  | [] => []
  | a :: rest => decide (best < a) :: phase1Go (if best < a then a else best) rest

/-- Per-epoch save flags of Phase 1 for a run with the given accuracies. -/
def phase1SaveFlags (accs : List ℚ) : List Bool := phase1Go 0 accs

/-- The accuracy of the snapshot sitting at model_saving_path after the loop
(each save overwrites the same path, lines 404-422); none means the path was
never written during this phase. -/
def phase1Ckpt (best : ℚ) (saved : Option ℚ) : List ℚ → Option ℚ
  | [] => saved
  | a :: rest => if best < a then phase1Ckpt a (some a) rest else phase1Ckpt best saved rest

/-- The snapshot that load_model at line 428 reloads after Phase 1. -/
def phase1FinalCheckpoint (accs : List ℚ) : Option ℚ := phase1Ckpt 0 none accs

theorem phase1Go_cons (b a : ℚ) (rest : List ℚ) :
    phase1Go b (a :: rest)
      = decide (b < a) :: phase1Go (if b < a then a else b) rest := rfl

theorem phase1Ckpt_cons (b : ℚ) (s : Option ℚ) (a : ℚ) (rest : List ℚ) :
    phase1Ckpt b s (a :: rest)
      = if b < a then phase1Ckpt a (some a) rest else phase1Ckpt b s rest := rfl

theorem if_lt_eq_max (b a : ℚ) : (if b < a then a else b) = max b a := by
  rcases le_or_lt a b with h | h
  · rw [if_neg (not_lt.mpr h), max_eq_left h]
  · rw [if_pos h, max_eq_right (le_of_lt h)]

theorem phase1Go_getD (accs : List ℚ) :
    ∀ b k, k < accs.length →
      ((phase1Go b accs).getD k false = true
        ↔ (accs.take k).foldl max b < accs.getD k 0) := by
  induction accs with
  | nil =>
    intro b k hk
    exact absurd hk (by simp)
  | cons a rest ih =>
    intro b k hk
    cases k with
    | zero =>
      rw [phase1Go_cons]
      simp
    | succ k2 =>
      have hk2 : k2 < rest.length := by simpa using hk
      rw [phase1Go_cons, List.getD_cons_succ, if_lt_eq_max, ih (max b a) k2 hk2,
        List.take_succ_cons, List.getD_cons_succ, List.foldl_cons]

theorem foldl_max_of_le (l : List ℚ) : ∀ b, (∀ x ∈ l, x ≤ b) → l.foldl max b = b := by
  induction l with
  | nil => intro b _; rfl
  | cons a rest ih =>
    intro b h
    have ha : a ≤ b := h a (by simp)
    rw [List.foldl_cons, max_eq_left ha]
    exact ih b (fun x hx => h x (by simp [hx]))

theorem phase1Ckpt_eq (accs : List ℚ) :
    ∀ b s, phase1Ckpt b s accs
      = if accs.any (fun x => decide (b < x)) = true then some (accs.foldl max b)
        else s := by
  induction accs with
  | nil => intro b s; simp [phase1Ckpt]
  | cons a rest ih =>
    intro b s
    by_cases hba : b < a
    · rw [phase1Ckpt_cons, if_pos hba, ih a (some a)]
      have hcond : ((a :: rest).any (fun x => decide (b < x))) = true := by
        simp [hba]
      rw [if_pos hcond, List.foldl_cons, max_eq_right (le_of_lt hba)]
      by_cases hrest : rest.any (fun x => decide (a < x)) = true
      · rw [if_pos hrest]
      · rw [if_neg hrest]
        have hle : ∀ x ∈ rest, x ≤ a := by
          intro x hx
          by_contra hc
          exact hrest (List.any_eq_true.mpr ⟨x, hx, by simp [lt_of_not_le hc]⟩)
        rw [foldl_max_of_le rest a hle]
    · rw [phase1Ckpt_cons, if_neg hba, ih b s]
      have hany : ((a :: rest).any (fun x => decide (b < x)))
          = (rest.any (fun x => decide (b < x))) := by
        simp [hba]
      rw [hany, List.foldl_cons, max_eq_left (not_lt.mp hba)]

/-- C8: during Phase 1 a checkpoint is saved after epoch k exactly when that
epoch accuracy strictly exceeds the running best (the maximum of the earlier
accuracies and the initial 0.0), and once any epoch beats 0.0 the snapshot
reloaded at the end of the phase is the one with the best accuracy of the
whole phase. -/
theorem phase1_checkpoint_policy (accs : List ℚ) (k : Nat) (hk : k < accs.length) :
    ((phase1SaveFlags accs).getD k false = true
      ↔ (accs.take k).foldl max 0 < accs.getD k 0)
    ∧ (accs.any (fun x => decide (0 < x)) = true
      → phase1FinalCheckpoint accs = some (accs.foldl max 0)) := by
  constructor
  · exact phase1Go_getD accs 0 k hk
  · intro hpos
    rw [phase1FinalCheckpoint, phase1Ckpt_eq accs 0 none, if_pos hpos]

/-- Witness for phase1_checkpoint_policy on the spec scenario accuracies
0.70, 0.65, 0.80: saves happen after epochs 1 and 3 only, and the reloaded
snapshot is the best one (0.80). -/
theorem phase1_checkpoint_policy_witness :
    phase1SaveFlags [7/10, 13/20, 4/5] = [true, false, true] ∧
    ((((phase1SaveFlags [7/10, 13/20, 4/5]).getD 2 false = true)
        ↔ (([7/10, 13/20, 4/5] : List ℚ).take 2).foldl max 0
            < ([7/10, 13/20, 4/5] : List ℚ).getD 2 0)
      ∧ (([7/10, 13/20, 4/5] : List ℚ).any (fun x => decide (0 < x)) = true
        → phase1FinalCheckpoint [7/10, 13/20, 4/5]
            = some (([7/10, 13/20, 4/5] : List ℚ).foldl max 0))) :=
  ⟨by norm_num [phase1SaveFlags, phase1Go],
    phase1_checkpoint_policy [7/10, 13/20, 4/5] 2 (by norm_num)⟩

/-- References to the trainable parameter blocks of the model: one block per
backbone transformer layer plus one block per classifier head (self.kernel
and self.classifiers, lines 97-111). -/
inductive ParamRef (L : Nat) where
  | backboneLayer (i : Fin L)
  | headBlock (i : Fin L)
deriving DecidableEq

/-- The parameter state: a block of type B per backbone layer, a block of
type H per classifier head. -/
structure FBParams (L : Nat) (B H : Type) where
  backboneP : Fin L → B
  headP : Fin L → H

/-- The supervised branch of _forward_for_loss (lines 274-291): fold every
backbone transformer layer over the embedding (lines 281-284), apply the last
classifier, classifiers[-1], to the result and reduce to the scalar loss
(lines 285-289). layerF, classifyF abstract the external transformer layer
and MiniClassifier-plus-criterion tensor kernels. The second component is the
list of parameter blocks this forward pass reads, in order — the autograd
tape. -/
def supervisedForwardTrace {L : Nat} {B H Hid : Type} (hL : 0 < L)
    (layerF : B → Hid → Hid) (classifyF : H → Hid → ℚ)
    (p : FBParams L B H) (emb : Hid) : ℚ × List (ParamRef L) :=
  (classifyF (p.headP ⟨L - 1, Nat.sub_lt hL Nat.one_pos⟩)
      ((List.finRange L).foldl (fun h i => layerF (p.backboneP i) h) emb),
   ((List.finRange L).foldl (fun t i => t ++ [ParamRef.backboneLayer i])
      ([] : List (ParamRef L)))
     ++ [ParamRef.headBlock ⟨L - 1, Nat.sub_lt hL Nat.one_pos⟩])

/-- Modelled from the spec: loss.backward plus optimizer.step (torch autograd
together with AdamW from uer/utils/optimizers.py, neither under src/).
Backpropagation writes a gradient exactly into the parameter blocks the
forward pass read, and the optimizer — a black box that updates parameters
given gradients — applies an abstract update to a block exactly when that
block holds a gradient, leaving every other block untouched. -/
def optimizerStepTraced {L : Nat} {B H : Type} (updB : B → B) (updH : H → H)
    (tape : List (ParamRef L)) (p : FBParams L B H) : FBParams L B H :=
  { backboneP := fun i =>
      if ParamRef.backboneLayer i ∈ tape then updB (p.backboneP i) else p.backboneP i,
    headP := fun i =>
      if ParamRef.headBlock i ∈ tape then updH (p.headP i) else p.headP i }

/-- One Phase 1 minibatch step (lines 375-393): zero_grad, supervised forward
for the loss, backward, optimizer step. -/
def fineTuningStep {L : Nat} {B H Hid : Type} (hL : 0 < L)
    (layerF : B → Hid → Hid) (classifyF : H → Hid → ℚ)
    (updB : B → B) (updH : H → H) (p : FBParams L B H) (emb : Hid) :
    FBParams L B H :=
  optimizerStepTraced updB updH (supervisedForwardTrace hL layerF classifyF p emb).2 p

/-- The whole Phase 1 minibatch loop (all epochs flattened into one batch
list) as it acts on the parameter state. -/
def fineTuningRun {L : Nat} {B H Hid : Type} (hL : 0 < L)
    (layerF : B → Hid → Hid) (classifyF : H → Hid → ℚ)
    (updB : B → B) (updH : H → H) (batches : List Hid) (p0 : FBParams L B H) :
    FBParams L B H :=
  batches.foldl (fun p emb => fineTuningStep hL layerF classifyF updB updH p emb) p0

theorem foldl_tape {L : Nat} :
    ∀ (l : List (Fin L)) (t : List (ParamRef L)),
      l.foldl (fun t i => t ++ [ParamRef.backboneLayer i]) t
        = t ++ l.map ParamRef.backboneLayer := by
  intro l
  induction l with
  | nil => intro t; simp
  | cons x xs ih =>
    intro t
    rw [List.foldl_cons, ih]
    simp

theorem supervisedForwardTrace_tape {L : Nat} {B H Hid : Type} (hL : 0 < L)
    (layerF : B → Hid → Hid) (classifyF : H → Hid → ℚ)
    (p : FBParams L B H) (emb : Hid) :
    (supervisedForwardTrace hL layerF classifyF p emb).2
      = (List.finRange L).map ParamRef.backboneLayer
        ++ [ParamRef.headBlock ⟨L - 1, Nat.sub_lt hL Nat.one_pos⟩] := by
  simp only [supervisedForwardTrace, foldl_tape, List.nil_append]

/-- C9: throughout Phase 1 every student head (index strictly below L - 1)
keeps its parameters: the supervised forward pass reads only the backbone
blocks and the teacher head, so no gradient ever reaches a student head and
the optimizer leaves it unchanged across every minibatch of the phase. -/
theorem phase1_students_unchanged {L : Nat} {B H Hid : Type} (hL : 0 < L)
    (layerF : B → Hid → Hid) (classifyF : H → Hid → ℚ)
    (updB : B → B) (updH : H → H) (batches : List Hid)
    (p0 : FBParams L B H) (i : Fin L) (hi : (i : Nat) < L - 1) :
    (fineTuningRun hL layerF classifyF updB updH batches p0).headP i = p0.headP i := by
  induction batches generalizing p0 with
  | nil => rfl
  | cons e es ih =>
    have hrun : fineTuningRun hL layerF classifyF updB updH (e :: es) p0
        = fineTuningRun hL layerF classifyF updB updH es
            (fineTuningStep hL layerF classifyF updB updH p0 e) := rfl
    rw [hrun, ih (fineTuningStep hL layerF classifyF updB updH p0 e)]
    show (optimizerStepTraced updB updH
        (supervisedForwardTrace hL layerF classifyF p0 e).2 p0).headP i = p0.headP i
    have hnot : ParamRef.headBlock i ∉ (supervisedForwardTrace hL layerF classifyF p0 e).2 := by
      rw [supervisedForwardTrace_tape]
      intro hmem
      rcases List.mem_append.mp hmem with hm | hm
      · rcases List.mem_map.mp hm with ⟨j, _, hj⟩
        exact absurd hj (by simp)
      · have h2 : i = ⟨L - 1, Nat.sub_lt hL Nat.one_pos⟩ := by simpa using hm
        have h3 : (i : Nat) = L - 1 := by rw [h2]
        omega
    simp [optimizerStepTraced, hnot]

/-- Witness for phase1_students_unchanged: a concrete two-layer run over two
minibatches with nontrivial layer, classifier and update functions leaves the
student head at index 0 at its initial value 0. -/
theorem phase1_students_unchanged_witness :
    (fineTuningRun (show 0 < 2 by omega) (fun (b : ℚ) (h : ℚ) => b + h)
        (fun (c : ℚ) (h : ℚ) => c * h) (fun b => b + 1) (fun c => c + 1)
        [(0 : ℚ), 1]
        (⟨fun _ => 0, fun _ => 0⟩ : FBParams 2 ℚ ℚ)).headP ⟨0, by omega⟩ = 0 :=
  phase1_students_unchanged (show 0 < 2 by omega) (fun (b : ℚ) (h : ℚ) => b + h)
    (fun (c : ℚ) (h : ℚ) => c * h) (fun b => b + 1) (fun c => c + 1)
    [(0 : ℚ), 1] (⟨fun _ => 0, fun _ => 0⟩ : FBParams 2 ℚ ℚ)
    ⟨0, by omega⟩ (by decide)

/-- The kwargs of fit read at lines 146-156; none means the caller omitted
the key and the documented default applies. -/
structure FitKwargs where
  batchSize : Option Nat
  learningRate : Option ℚ
  devSpeedOpt : Option ℚ

/-- fit (lines 146-167): the learning rates handed to the two phases.
_fine_tuning_backbone receives learning_rate itself (line 160) and
self_distillation receives learning_rate*10 (line 164); the default
learning_rate is 2e-5 = 1/50000 (line 149). -/
def fitPhaseLrs (kw : FitKwargs) : ℚ × ℚ :=
  (kw.learningRate.getD (1 / 50000), kw.learningRate.getD (1 / 50000) * 10)

/-- C10: the self-distillation phase always runs at exactly ten times the
caller-supplied learning_rate option; with the default 2e-5 the distillation
phase therefore runs at 2e-4, not at the single documented learning_rate. -/
theorem fit_distillation_lr_times_ten :
    (∀ kw : FitKwargs, (fitPhaseLrs kw).2 = 10 * (fitPhaseLrs kw).1)
    ∧ (fitPhaseLrs ⟨none, none, none⟩).1 = 1 / 50000
    ∧ (fitPhaseLrs ⟨none, none, none⟩).2 = 1 / 5000 := by
  refine ⟨fun kw => ?_, by norm_num [fitPhaseLrs], by norm_num [fitPhaseLrs]⟩
  simp [fitPhaseLrs, mul_comm]

end FastBERT
